import Mathlib

/-
Verification of the shared-utils configuration pipeline and identity helper.

The development shallowly embeds the Python sources:
  - src/shared_utils/config/config.py  (secret resolution, environment
    scanning, settings assembly, derived fields)
  - src/shared_utils/identity.py       (deterministic account UUID)

Modelling conventions:
  - Python dicts are association lists with insert-or-update semantics that
    preserve insertion order, matching dict assignment.
  - The process environment is a list of (name, value) pairs; lookup of the
    declared settings fields uses the canonical upper-case names (the
    claims only use canonical names, so case folding of the lookup is not
    modelled).
  - The file system is a total map from paths to a file state: a path is
    absent, present but failing to read, or readable with some content.
  - Machine integers are Nat with explicit reduction mod 2 ^ 32 where the
    SHA-1 rounds overflow.
  - Fallible construction returns Except String.
-/

set_option autoImplicit false

namespace SharedUtils

universe u v

/-! ## Association-list model of Python dicts -/

/-- Lookup in an insertion-ordered dictionary, first matching key wins
(keys are unique by construction of `dictInsert`). -/
def dictGet {κ : Type u} {α : Type v} [DecidableEq κ] : List (κ × α) → κ → Option α
  | [], _ => none
  | (k, v) :: rest, key => if k = key then some v else dictGet rest key

/-- Python dict assignment: update the value in place when the key exists,
otherwise append the pair at the end. -/
def dictInsert {κ : Type u} {α : Type v} [DecidableEq κ] : List (κ × α) → κ → α → List (κ × α)
  | [], key, val => [(key, val)]
  | (k, v) :: rest, key, val =>
    if k = key then (key, val) :: rest else (k, v) :: dictInsert rest key val

/-! ## Character-level string primitives

The Python string operations used by the loader (strip, lower, split,
startswith, int coercion) are embedded as structural recursions over the
character list of a string, so that every definition evaluates inside the
kernel on concrete inputs. -/

/-- Python str.strip default whitespace set: space, tab, newline,
vertical tab, form feed, carriage return. -/
def isPySpace (c : Char) : Bool :=
  c.toNat = 32 || (9 ≤ c.toNat && c.toNat ≤ 13)

/-- Python str.strip(): remove leading and trailing whitespace. -/
def pyStrip (s : String) : String :=
  ⟨(((s.data.dropWhile isPySpace).reverse).dropWhile isPySpace).reverse⟩

/-- ASCII lower-casing of one character (environment keys are ASCII). -/
def pyLowerChar (c : Char) : Char :=
  if 65 ≤ c.toNat && c.toNat ≤ 90 then Char.ofNat (c.toNat + 32) else c

/-- Python str.lower() on ASCII strings. -/
def pyLower (s : String) : String :=
  ⟨s.data.map pyLowerChar⟩

/-- Does the pattern occur at the head of the text? -/
def matchAt : List Char → List Char → Bool
  | [], _ => true
  | _ :: _, [] => false
  | p :: ps, c :: cs => p = c && matchAt ps cs

/-- Python str.startswith(p). -/
def pyStartsWith (s p : String) : Bool :=
  matchAt p.data s.data

/-- Worker for split: scan the text left to right, breaking at every
non-overlapping occurrence of the separator.  The fuel is consumed at
least once per emitted character or separator skip, so text length plus
one is always enough. -/
def pySplitAux (sep : List Char) : Nat → List Char → List Char → List (List Char)
  | 0, cur, _ => [cur.reverse]
  | _ + 1, cur, [] => [cur.reverse]
  | fuel + 1, cur, c :: rest =>
    if matchAt sep (c :: rest) then
      cur.reverse :: pySplitAux sep fuel [] (List.drop sep.length (c :: rest))
    else
      pySplitAux sep fuel (c :: cur) rest

/-- Python s.split(sep) for a non-empty separator. -/
def pySplit (s sep : String) : List String :=
  (pySplitAux sep.data (s.data.length + 1) [] s.data).map (fun l => ⟨l⟩)

/-- Value of a decimal digit character. -/
def digitVal (c : Char) : Option Nat :=
  if 48 ≤ c.toNat && c.toNat ≤ 57 then some (c.toNat - 48) else none

/-- Accumulates a decimal digit string into a number; fails on the first
non-digit. -/
def digitsToNatAux : Nat → List Char → Option Nat
  | acc, [] => some acc
  | acc, c :: cs =>
    match digitVal c with
    | some d => digitsToNatAux (acc * 10 + d) cs
    | none => none

/-- Parses a non-empty all-digit string. -/
def parseDigits : List Char → Option Nat
  | [] => none
  | cs => digitsToNatAux 0 cs

/-- Parses an optionally signed decimal integer literal. -/
def parseIntChars : List Char → Option Int
  | [] => none
  | c :: cs =>
    if c = '-' then (parseDigits cs).map (fun n => -(n : Int))
    else if c = '+' then (parseDigits cs).map (fun n => (n : Int))
    else (parseDigits (c :: cs)).map (fun n => (n : Int))

/-! ## File system and secret resolution (config.py, read_secret) -/

/-- State of a path on disk: missing, present but raising on read, or
readable with the given content. -/
inductive FileState where
  | absent
  | unreadable
  | readable (content : String)
  deriving DecidableEq

/-- A file system assigns a state to every path. -/
abbrev FS : Type := String → FileState

/-- Shallow embedding of `read_secret(value, file_path)`.

Python source:
  if file_path and os.path.exists(file_path):
      try: return Path(file_path).read_text().strip()
      except Exception: log.error(...); return None
  return value

An empty path string is falsy in Python, hence treated like an unset path.
A read failure logs and returns None (the absent value). -/
def read_secret (value : Option String) (file_path : Option String) (fs : FS) : Option String :=
  match file_path with
  | none => value
  | some p =>
    if p = "" then value
    else
      match fs p with
      | FileState.absent => value
      | FileState.unreadable => none
      | FileState.readable c => some (pyStrip c)

/-! ## RawEnvSettings (config.py, class RawEnvSettings) -/

/-- The process environment: an ordered list of (name, value) pairs. -/
abbrev Env : Type := List (String × String)

/-- Raw environment lookup by exact name. -/
def envGet (env : Env) (key : String) : Option String := dictGet env key

/-- Lookup with a default, for the string-typed declared fields. -/
def getStrD (env : Env) (key dflt : String) : String := (envGet env key).getD dflt

/-- Models the coercion pydantic applies to an `int`-typed field fed from an
environment string: trim surrounding whitespace and parse an optionally
signed decimal literal; anything else is a validation failure. -/
def pydInt (s : String) : Option Int := parseIntChars (pyStrip s).data

/-- Typed read of an `int` field with a hardcoded default; a present but
non-integer value is a validation error. -/
def getIntD (env : Env) (key : String) (dflt : Int) : Except String Int :=
  match envGet env key with
  | none => Except.ok dflt
  | some s =>
    match pydInt s with
    | some i => Except.ok i
    | none => Except.error ("Invalid integer value for " ++ key)

/-- The flat raw-settings structure, one field per declared environment
variable of `RawEnvSettings` (config.py lines 177-201). -/
structure RawEnvSettings where
  SERVICE_NAME : String
  ENVIRONMENT : String
  STRATEGY_CONFIG_PATH : String
  REDIS_URL : String
  REDIS_DB : Int
  REDIS_PASSWORD : Option String
  POSTGRES_USER : String
  POSTGRES_PASSWORD : Option String
  POSTGRES_PASSWORD_FILE : Option String
  POSTGRES_HOST : String
  POSTGRES_PORT : Int
  POSTGRES_DB : String
  DERIBIT_CLIENT_ID_FILE : Option String
  DERIBIT_CLIENT_SECRET_FILE : Option String
  OCI_DSN_FILE : Option String
  OCI_WALLET_DIR : Option String
  deriving DecidableEq

/-- Construction of `RawEnvSettings()` from the environment.  String fields
have hardcoded defaults or are optional and never fail; the two int-typed
fields go through pydantic integer coercion and can fail validation.
Extra environment variables are permitted (extra="allow"). -/
def mkRawEnvSettings (env : Env) : Except String RawEnvSettings :=
  match getIntD env "REDIS_DB" 0, getIntD env "POSTGRES_PORT" 5432 with
  | Except.ok redisDb, Except.ok pgPort =>
    Except.ok
      { SERVICE_NAME := getStrD env "SERVICE_NAME" "unknown"
        ENVIRONMENT := getStrD env "ENVIRONMENT" "development"
        STRATEGY_CONFIG_PATH := getStrD env "STRATEGY_CONFIG_PATH" "/app/src/shared/config/strategies.toml"
        REDIS_URL := getStrD env "REDIS_URL" "redis://localhost:6379"
        REDIS_DB := redisDb
        REDIS_PASSWORD := envGet env "REDIS_PASSWORD"
        POSTGRES_USER := getStrD env "POSTGRES_USER" "trading_app"
        POSTGRES_PASSWORD := envGet env "POSTGRES_PASSWORD"
        POSTGRES_PASSWORD_FILE := envGet env "POSTGRES_PASSWORD_FILE"
        POSTGRES_HOST := getStrD env "POSTGRES_HOST" "postgres"
        POSTGRES_PORT := pgPort
        POSTGRES_DB := getStrD env "POSTGRES_DB" "trading"
        DERIBIT_CLIENT_ID_FILE := envGet env "DERIBIT_CLIENT_ID_FILE"
        DERIBIT_CLIENT_SECRET_FILE := envGet env "DERIBIT_CLIENT_SECRET_FILE"
        OCI_DSN_FILE := envGet env "OCI_DSN_FILE"
        OCI_WALLET_DIR := envGet env "OCI_WALLET_DIR" }
  | Except.error e, _ => Except.error e
  | _, Except.error e => Except.error e

/-- True iff an Except value is a success. -/
def isOkE {α : Type u} : Except String α → Bool
  | Except.ok _ => true
  | Except.error _ => false

/-! ## Dynamic exchange-credential scan (config.py lines 209-218) -/

/-- A bag of string fields for one exchange, as scanned from the environment. -/
abbrev StrDict : Type := List (String × String)

/-- Parses one environment key the way the scan loop does:

  key = key.lower()
  if key.startswith("exchanges__"):
      parts = key.split("__")
      if len(parts) == 3:
          _, exchange_name, field_name = parts

Returns the (exchange_name, field_name) pair on a match.  The first split
segment is discarded without inspection, exactly as in the source. -/
def parseExchangeKey (key : String) : Option (String × String) :=
  let lk := pyLower key
  if pyStartsWith lk "exchanges__" then
    match pySplit lk "__" with
    | [_, exchange_name, field_name] => some (exchange_name, field_name)
    | _ => none
  else none

/-- One iteration of the scan loop: on a match, store the (field, value)
pair under the exchange name, creating the inner dict when missing. -/
def scanStep (acc : List (String × StrDict)) (kv : String × String) : List (String × StrDict) :=
  match parseExchangeKey kv.1 with
  | some (ex, fld) => dictInsert acc ex (dictInsert ((dictGet acc ex).getD []) fld kv.2)
  | none => acc

/-- The full environment scan building `exchanges_data`. -/
def buildExchangesData (env : Env) : List (String × StrDict) :=
  env.foldl scanStep []

/-- Python truthiness of an optional string: present and non-empty. -/
def truthyOpt : Option String → Bool
  | none => false
  | some s => s ≠ ""

/-- The Deribit file-based override block (config.py lines 220-227):
only entered when a "deribit" key exists in the scanned data; each
credential field is replaced by the `read_secret` result only when that
result is truthy, otherwise the scanned value is kept. -/
def applyDeribitOverrides (raw : RawEnvSettings) (fs : FS)
    (exd : List (String × StrDict)) : List (String × StrDict) :=
  match dictGet exd "deribit" with
  | none => exd
  | some d =>
    let idResolved := read_secret (dictGet d "client_id") raw.DERIBIT_CLIENT_ID_FILE fs
    let secResolved := read_secret (dictGet d "client_secret") raw.DERIBIT_CLIENT_SECRET_FILE fs
    let d1 := if truthyOpt idResolved then dictInsert d "client_id" (idResolved.getD "") else d
    let d2 := if truthyOpt secResolved then dictInsert d1 "client_secret" (secResolved.getD "") else d1
    dictInsert exd "deribit" d2

/-- The value a Deribit credential field ends with after the override
block, as a function of the scanned direct value and the file path:
the `read_secret` result when truthy, else the scanned value. -/
def deribitResolve (direct : Option String) (file_path : Option String) (fs : FS) : Option String :=
  match read_secret direct file_path fs with
  | none => direct
  | some s => if s = "" then direct else some s

/-! ## Settings models (config.py, pydantic models) -/

/-- `ExchangeSettings`: five declared optional fields plus free-form extras
(model_config extra="allow"). -/
structure ExchangeSettings where
  account_id : Option String := none
  ws_url : Option String := none
  rest_url : Option String := none
  client_id : Option String := none
  client_secret : Option String := none
  extra : StrDict := []
  deriving DecidableEq

/-- The declared field names of `ExchangeSettings`. -/
def knownExchangeFields : List String :=
  ["account_id", "ws_url", "rest_url", "client_id", "client_secret"]

/-- Validation of a scanned field bag into an `ExchangeSettings` value:
declared names fill the declared fields, everything else is kept as an
extra field. -/
def toExchangeSettings (d : StrDict) : ExchangeSettings :=
  { account_id := dictGet d "account_id"
    ws_url := dictGet d "ws_url"
    rest_url := dictGet d "rest_url"
    client_id := dictGet d "client_id"
    client_secret := dictGet d "client_secret"
    extra := d.filter (fun kv => !(knownExchangeFields.contains kv.1)) }

/-- Modelled from the spec: the `MarketDefinition` record imported from
`src.shared.models`, which is not part of the provided sources.  Per the
spec (sections 3 and 8 and the glossary), a market definition carries a
market identifier, the name of the exchange it trades on, and websocket /
REST base-URL fields that are hydrated from the connection settings of
the matching exchange during market-map derivation. -/
structure MarketDefinition where
  market_id : String
  exchange : String
  ws_base_url : Option String := none
  rest_base_url : Option String := none
  deriving DecidableEq

/-- A strategy document; only the label key participates in derivation. -/
structure Strategy where
  strategy_label : Option String := none
  deriving DecidableEq

/-- `PostgresSettings` (config.py lines 74-83). -/
structure PostgresSettings where
  user : String
  password : String
  host : String
  port : Int
  db : String
  deriving DecidableEq

/-- `RedisSettings` (config.py lines 86-89). -/
structure RedisSettings where
  url : String
  db : Int
  password : Option String
  deriving DecidableEq

/-- `OCISettings` (config.py lines 93-95). -/
structure OCISettings where
  dsn : String
  wallet_dir : String
  deriving DecidableEq

/-- The parsed static configuration document, restricted to the
schema-typed keys the verified claims exercise.  A missing file is the
empty document (the loader proceeds with {} after a warning).  Each
tradable item is represented by its "spot" list (items without a "spot"
key contribute the empty list).  When the document supplies an
"exchanges" key it replaces the environment-scanned set wholesale, since
the static document wins on key conflicts. -/
structure TomlDoc where
  market_definitions : List MarketDefinition := []
  tradable : List (List String) := []
  strategies : List Strategy := []
  exchanges : Option (List (String × StrDict)) := none

/-- `AppSettings` restricted to the fields the claims exercise. -/
structure AppSettings where
  service_name : String
  environment : String
  strategy_config_path : String
  exchanges : List (String × ExchangeSettings) := []
  market_definitions : List MarketDefinition := []
  redis : RedisSettings
  postgres : Option PostgresSettings := none
  oci : Option OCISettings := none
  tradable : List (List String) := []
  strategies : List Strategy := []
  hedged_currencies : List String := []
  strategy_map : List (Option String × Strategy) := []

/-- Hydration of a market definition from its exchange entry: the base
URLs are overwritten from the exchange connection settings. -/
def hydrate (md : MarketDefinition) (cfg : ExchangeSettings) : MarketDefinition :=
  { md with ws_base_url := cfg.ws_url, rest_base_url := cfg.rest_url }

/-- One iteration of the market-map loop: a definition whose exchange has
no entry in the exchange set is skipped (a pydantic model instance is
always truthy, so the `if not exchange_config` guard fires exactly when
`get` returns None); otherwise the hydrated definition is stored under
its market id. -/
def marketStep (exchanges : List (String × ExchangeSettings))
    (acc : List (String × MarketDefinition)) (md : MarketDefinition) :
    List (String × MarketDefinition) :=
  match dictGet exchanges md.exchange with
  | none => acc
  | some cfg => dictInsert acc md.market_id (hydrate md cfg)

/-- The computed `market_map` property (config.py lines 148-162). -/
def AppSettings.market_map (s : AppSettings) : List (String × MarketDefinition) :=
  s.market_definitions.foldl (marketStep s.exchanges) []

/-- The hedged-currency derivation: concatenate every "spot" list, drop
duplicates, sort ascending — sorted(list(set(...))). -/
def hedged_currencies_of (tradable : List (List String)) : List String :=
  ((tradable.foldl (fun acc it => acc ++ it) []).dedup).insertionSort (· ≤ ·)

/-- The model validator `build_other_derived_fields` (config.py lines
164-174): fills `hedged_currencies` and `strategy_map` from the already
validated fields.  The strategy map is keyed by the optional label, later
entries overwriting earlier ones as in a dict comprehension. -/
def build_other_derived_fields (s : AppSettings) : AppSettings :=
  { s with
    hedged_currencies := hedged_currencies_of s.tradable
    strategy_map :=
      s.strategies.foldl (fun acc st => dictInsert acc st.strategy_label st) [] }

/-! ## load_settings (config.py lines 204-276) -/

/-- The enumerated services that require a database block. -/
def servicesRequiringDb : List String :=
  ["distributor", "executor", "janitor", "receiver", "analyzer", "backfill"]

/-- The fatal message raised when a database-requiring service has no
resolvable password; it names the service. -/
def pgErrorMessage (service : String) : String :=
  "PostgreSQL password could not be loaded for service " ++ service ++ "."

/-- The fatal message raised when the executor lacks its OCI settings. -/
def ociErrorMessage : String :=
  "Executor service requires OCI_DSN_FILE and OCI_WALLET_DIR to be set."

/-- Shallow embedding of `load_settings()`:

  1. construct RawEnvSettings (can fail on int-typed fields),
  2. scan the environment into exchanges_data,
  3. apply the Deribit file-based overrides,
  4. merge with the static document (which wins on the keys it defines),
  5. conditionally require the postgres block (services_requiring_db),
  6. conditionally require the OCI block (executor),
  7. validate into AppSettings and run the derivation validator.

The ValueError raised by step 5 happens before the one in step 6, as in
the source.  The static document is passed in already parsed and typed,
so step 7 cannot fail in the model.

Step 5: the conditional database requirement. -/
def pgBlockOf (raw : RawEnvSettings) (fs : FS) : Except String (Option PostgresSettings) :=
  if raw.SERVICE_NAME ∈ servicesRequiringDb then
    (if (read_secret raw.POSTGRES_PASSWORD raw.POSTGRES_PASSWORD_FILE fs).getD "" = "" then
      Except.error (pgErrorMessage raw.SERVICE_NAME)
    else
      Except.ok (some
        { user := raw.POSTGRES_USER
          password := (read_secret raw.POSTGRES_PASSWORD raw.POSTGRES_PASSWORD_FILE fs).getD ""
          host := raw.POSTGRES_HOST
          port := raw.POSTGRES_PORT
          db := raw.POSTGRES_DB }))
  else Except.ok none

/-- Step 6: the conditional OCI requirement for the executor sentinel. -/
def ociBlockOf (raw : RawEnvSettings) (fs : FS) : Except String (Option OCISettings) :=
  if raw.SERVICE_NAME = "executor" then
    (if (read_secret none raw.OCI_DSN_FILE fs).getD "" ≠ "" ∧ raw.OCI_WALLET_DIR.getD "" ≠ "" then
      Except.ok (some
        { dsn := (read_secret none raw.OCI_DSN_FILE fs).getD ""
          wallet_dir := raw.OCI_WALLET_DIR.getD "" })
    else Except.error ociErrorMessage)
  else Except.ok none

/-- Step 4 and 7: the merged candidate document, validated into
AppSettings with the derivation validator applied. -/
def mergedSettings (raw : RawEnvSettings) (env : Env) (fs : FS) (toml : TomlDoc)
    (postgresBlock : Option PostgresSettings) (ociBlock : Option OCISettings) : AppSettings :=
  build_other_derived_fields
    { service_name := raw.SERVICE_NAME
      environment := raw.ENVIRONMENT
      strategy_config_path := raw.STRATEGY_CONFIG_PATH
      exchanges := (toml.exchanges.getD (applyDeribitOverrides raw fs (buildExchangesData env))).map
        (fun kv => (kv.1, toExchangeSettings kv.2))
      market_definitions := toml.market_definitions
      redis :=
        { url := raw.REDIS_URL
          db := raw.REDIS_DB
          password := raw.REDIS_PASSWORD }
      postgres := postgresBlock
      oci := ociBlock
      tradable := toml.tradable
      strategies := toml.strategies }

/-- Steps 2-7 after a successful RawEnvSettings construction. -/
def assembleSettings (raw : RawEnvSettings) (env : Env) (fs : FS) (toml : TomlDoc) :
    Except String AppSettings :=
  match pgBlockOf raw fs with
  | Except.error e => Except.error e
  | Except.ok postgresBlock =>
    match ociBlockOf raw fs with
    | Except.error e => Except.error e
    | Except.ok ociBlock =>
      Except.ok (mergedSettings raw env fs toml postgresBlock ociBlock)

def load_settings (env : Env) (fs : FS) (toml : TomlDoc) : Except String AppSettings :=
  match mkRawEnvSettings env with
  | Except.error e => Except.error e
  | Except.ok raw => assembleSettings raw env fs toml

/-- Postgres block of a load result, absent on failure. -/
def resultPostgres (r : Except String AppSettings) : Option PostgresSettings :=
  match r with
  | Except.ok s => s.postgres
  | Except.error _ => none

/-- OCI block of a load result, absent on failure. -/
def resultOci (r : Except String AppSettings) : Option OCISettings :=
  match r with
  | Except.ok s => s.oci
  | Except.error _ => none

/-- Deribit client_id of a load result, absent on failure. -/
def resultDeribitClientId (r : Except String AppSettings) : Option String :=
  match r with
  | Except.ok s => (dictGet s.exchanges "deribit").bind (fun es => es.client_id)
  | Except.error _ => none

/-! ## SHA-1 and UUIDv5 (identity.py, get_account_uuid)

Bytes are Nat values below 256, 32-bit words are Nat values reduced
mod 2 ^ 32.  The construction follows RFC 3174 (SHA-1) and RFC 4122
(name-based version-5 UUID), which is what uuid.uuid5 computes. -/

/-- 2 ^ 32, the word modulus. -/
def mask32 : Nat := 4294967296

/-- Left rotation of a 32-bit word. -/
def rotl32 (n x : Nat) : Nat :=
  ((x <<< n) ||| (x >>> (32 - n))) % mask32

/-- Big-endian byte decomposition of a number into k bytes. -/
def beBytes (k n : Nat) : List Nat :=
  (List.range k).map (fun i => (n >>> (8 * (k - 1 - i))) % 256)

/-- SHA-1 message padding: a 0x80 byte, zeros up to 56 mod 64, then the
bit length as an 8-byte big-endian number. -/
def sha1pad (msg : List Nat) : List Nat :=
  msg ++ [128] ++ List.replicate ((56 + 64 - (msg.length + 1) % 64) % 64) 0
      ++ beBytes 8 (8 * msg.length)

/-- Groups a byte list into big-endian 32-bit words. -/
def bytesToWords : List Nat → List Nat
  | a :: b :: c :: d :: rest => (((a * 256 + b) * 256 + c) * 256 + d) :: bytesToWords rest
  | _ => []

/-- Splits a list into 64-element chunks; the fuel argument makes the
recursion structural (one chunk consumes at least one element, so the
list length is enough fuel). -/
def chunks64Fuel : Nat → List Nat → List (List Nat)
  | 0, _ => []
  | _, [] => []
  | fuel + 1, x :: rest => (x :: rest.take 63) :: chunks64Fuel fuel (rest.drop 63)

/-- Splits a list into 64-element chunks. -/
def chunks64 (l : List Nat) : List (List Nat) :=
  chunks64Fuel l.length l

/-- Extension step, operating on the reversed schedule so that the words
3, 8, 14 and 16 positions back sit at reversed indices 2, 7, 13 and 15. -/
def extendWordsRev : Nat → List Nat → List Nat
  | 0, acc => acc
  | k + 1, acc =>
    extendWordsRev k
      (rotl32 1 ((acc.getD 2 0 ^^^ acc.getD 7 0) ^^^ (acc.getD 13 0 ^^^ acc.getD 15 0)) :: acc)

/-- Extends the 16 words of a chunk to the 80-word message schedule. -/
def extendWords (w : List Nat) : List Nat :=
  (extendWordsRev 64 w.reverse).reverse

/-- The five-word SHA-1 state. -/
structure Sha1State where
  h0 : Nat
  h1 : Nat
  h2 : Nat
  h3 : Nat
  h4 : Nat
  deriving DecidableEq

/-- The round function f of round i. -/
def sha1f (i b c d : Nat) : Nat :=
  if i < 20 then (b &&& c) ||| ((b ^^^ 4294967295) &&& d)
  else if i < 40 then (b ^^^ c) ^^^ d
  else if i < 60 then ((b &&& c) ||| (b &&& d)) ||| (c &&& d)
  else (b ^^^ c) ^^^ d

/-- The round constant of round i. -/
def sha1k (i : Nat) : Nat :=
  if i < 20 then 1518500249
  else if i < 40 then 1859775393
  else if i < 60 then 2400959708
  else 3395469782

/-- One compression round, taking (round index, schedule word). -/
def sha1step (st : Sha1State) (iw : Nat × Nat) : Sha1State :=
  let temp := (rotl32 5 st.h0 + sha1f iw.1 st.h1 st.h2 st.h3 + st.h4 + sha1k iw.1 + iw.2) % mask32
  { h0 := temp, h1 := st.h0, h2 := rotl32 30 st.h1, h3 := st.h2, h4 := st.h3 }

/-- Compression of one 64-byte chunk into the running state. -/
def sha1chunk (st : Sha1State) (chunk : List Nat) : Sha1State :=
  let w := extendWords (bytesToWords chunk)
  let r := w.enum.foldl sha1step st
  { h0 := (st.h0 + r.h0) % mask32
    h1 := (st.h1 + r.h1) % mask32
    h2 := (st.h2 + r.h2) % mask32
    h3 := (st.h3 + r.h3) % mask32
    h4 := (st.h4 + r.h4) % mask32 }

/-- Serialization of the final state as 20 big-endian bytes. -/
def sha1digest (st : Sha1State) : List Nat :=
  beBytes 4 st.h0 ++ beBytes 4 st.h1 ++ beBytes 4 st.h2 ++ beBytes 4 st.h3 ++ beBytes 4 st.h4

/-- The SHA-1 digest (20 bytes) of a byte list. -/
def sha1 (msg : List Nat) : List Nat :=
  sha1digest ((chunks64 (sha1pad msg)).foldl sha1chunk
    { h0 := 1732584193, h1 := 4023233417, h2 := 2562383102, h3 := 271733878, h4 := 3285377520 })

/-- UTF-8 encoding of one character. -/
def utf8Encode (c : Char) : List Nat :=
  let n := c.toNat
  if n < 128 then [n]
  else if n < 2048 then [192 + n / 64, 128 + n % 64]
  else if n < 65536 then [224 + n / 4096, 128 + (n / 64) % 64, 128 + n % 64]
  else [240 + n / 262144, 128 + (n / 4096) % 64, 128 + (n / 64) % 64, 128 + n % 64]

/-- UTF-8 bytes of a string, as account ids are encoded before hashing. -/
def strBytes (s : String) : List Nat :=
  s.data.foldr (fun c acc => utf8Encode c ++ acc) []

/-- Patches byte 6 to version 5 and byte 8 to the RFC 4122 variant, as
the uuid constructor does on the truncated digest. -/
def setVersion5AndVariant (bs : List Nat) : List Nat :=
  bs.enum.map (fun ib =>
    if ib.1 = 6 then (ib.2 &&& 15) ||| 80
    else if ib.1 = 8 then (ib.2 &&& 63) ||| 128
    else ib.2)

/-- Name-based version-5 UUID: first 16 bytes of the SHA-1 of the
namespace bytes followed by the name bytes, with version and variant
bits forced. -/
def uuid5 (ns nameBytes : List Nat) : List Nat :=
  setVersion5AndVariant ((sha1 (ns ++ nameBytes)).take 16)

/-- The bytes of the hardcoded namespace UUID
951e7376-a07e-52ad-9477-030913972236 (identity.py line 8). -/
def TRADING_IDENTITY_NAMESPACE : List Nat :=
  [149, 30, 115, 118, 160, 126, 82, 173, 148, 119, 3, 9, 19, 151, 34, 54]

/-- Shallow embedding of `get_account_uuid(account_id)`:
uuid.uuid5(TRADING_IDENTITY_NAMESPACE, account_id). -/
def get_account_uuid (account_id : String) : List Nat :=
  uuid5 TRADING_IDENTITY_NAMESPACE (strBytes account_id)

/-! ## Statement helpers -/

/-- The scanned exchange data contain field y of exchange x. -/
def fieldMem (d : List (String × StrDict)) (x y : String) : Prop :=
  ∃ m, dictGet d x = some m ∧ (dictGet m y).isSome = true

/-- The value stored for field y of exchange x, when present. -/
def fieldVal (d : List (String × StrDict)) (x y : String) : Option String :=
  (dictGet d x).bind (fun m => dictGet m y)

/-- The value of the last environment key parsing to (x, y): repeated
dict assignment lets a later matching key overwrite an earlier one, so
this is the value the scan must store. -/
def lastMatchValue (env : Env) (x y : String) : Option String :=
  env.foldl (fun r kv => if parseExchangeKey kv.1 = some (x, y) then some kv.2 else r) none

/-- Is a declared int-typed environment variable absent or a valid
integer literal? -/
def intFieldOk (env : Env) (key : String) : Bool :=
  match envGet env key with
  | none => true
  | some s => (pydInt s).isSome

/-! ## Concrete inputs for witnesses and counterexamples -/

/-- An empty file system. -/
def fs0 : FS := fun _ => FileState.absent

/-- A file system where /s exists but reading it raises. -/
def fsUnreadable : FS := fun p => if p = "/s" then FileState.unreadable else FileState.absent

/-- A file system where /s is readable with padded content. -/
def fsReadable : FS := fun p => if p = "/s" then FileState.readable "  pw\n" else FileState.absent

/-- A file system where only /oci is readable. -/
def fsOci : FS := fun p => if p = "/oci" then FileState.readable "mydsn" else FileState.absent

/-- The empty static document. -/
def toml0 : TomlDoc := {}

/-- The raw settings produced by an empty environment: every field at its
hardcoded default. -/
def defaultRaw : RawEnvSettings :=
  { SERVICE_NAME := "unknown"
    ENVIRONMENT := "development"
    STRATEGY_CONFIG_PATH := "/app/src/shared/config/strategies.toml"
    REDIS_URL := "redis://localhost:6379"
    REDIS_DB := 0
    REDIS_PASSWORD := none
    POSTGRES_USER := "trading_app"
    POSTGRES_PASSWORD := none
    POSTGRES_PASSWORD_FILE := none
    POSTGRES_HOST := "postgres"
    POSTGRES_PORT := 5432
    POSTGRES_DB := "trading"
    DERIBIT_CLIENT_ID_FILE := none
    DERIBIT_CLIENT_SECRET_FILE := none
    OCI_DSN_FILE := none
    OCI_WALLET_DIR := none }

/-- Environment with an invalid int-typed variable. -/
def envBadInt : Env := [("REDIS_DB", "not_a_number")]

/-- Distributor service with no password source at all. -/
def envDistNoPw : Env := [("SERVICE_NAME", "distributor")]

/-- Distributor service with a direct password. -/
def envDistPw : Env := [("SERVICE_NAME", "distributor"), ("POSTGRES_PASSWORD", "pw")]

/-- Executor with a database password but neither OCI input. -/
def envExecPwNoOci : Env := [("SERVICE_NAME", "executor"), ("POSTGRES_PASSWORD", "pw")]

/-- Executor with both OCI inputs present but no database password. -/
def envExecNoPw : Env :=
  [("SERVICE_NAME", "executor"), ("OCI_DSN_FILE", "/oci"), ("OCI_WALLET_DIR", "/wallet")]

/-- Executor with both OCI inputs and a database password. -/
def envExecFull : Env :=
  [("SERVICE_NAME", "executor"), ("POSTGRES_PASSWORD", "pw"),
   ("OCI_DSN_FILE", "/oci"), ("OCI_WALLET_DIR", "/wallet")]

/-- A Deribit credential in the environment plus a file override path
(whose read will fail in fsUnreadable). -/
def envDeribitFile : Env :=
  [("EXCHANGES__deribit__client_id", "directvalue"), ("DERIBIT_CLIENT_ID_FILE", "/s")]

/-- A Deribit credential in the environment plus a readable file override. -/
def envDeribitReadable : Env :=
  [("EXCHANGES__deribit__client_id", "directvalue"), ("DERIBIT_CLIENT_ID_FILE", "/s"),
   ("SERVICE_NAME", "distributor"), ("POSTGRES_PASSWORD", "pw")]

/-- A sample settings value with one configured exchange and two market
definitions, one of which references a missing exchange. -/
def sampleSettings : AppSettings :=
  { service_name := "unknown"
    environment := "development"
    strategy_config_path := "p"
    exchanges := [("deribit", { ws_url := some "wss://w", rest_url := some "https://r" })]
    market_definitions :=
      [{ market_id := "m1", exchange := "deribit" }, { market_id := "m2", exchange := "binance" }]
    redis := { url := "u", db := 0, password := none } }

/-- The hydrated definition expected for market m1 in sampleSettings. -/
def sampleHydrated : MarketDefinition :=
  { market_id := "m1", exchange := "deribit"
    ws_base_url := some "wss://w", rest_base_url := some "https://r" }

/-- The raw settings for envDistNoPw. -/
def rawDistNoPw : RawEnvSettings := { defaultRaw with SERVICE_NAME := "distributor" }

/-- The raw settings for envDistPw. -/
def rawDistPw : RawEnvSettings :=
  { defaultRaw with SERVICE_NAME := "distributor", POSTGRES_PASSWORD := some "pw" }

/-- The raw settings for envExecFull. -/
def rawExecFull : RawEnvSettings :=
  { defaultRaw with
    SERVICE_NAME := "executor"
    POSTGRES_PASSWORD := some "pw"
    OCI_DSN_FILE := some "/oci"
    OCI_WALLET_DIR := some "/wallet" }

/-- The raw settings for envDeribitReadable. -/
def rawDeribitRd : RawEnvSettings :=
  { defaultRaw with
    SERVICE_NAME := "distributor"
    POSTGRES_PASSWORD := some "pw"
    DERIBIT_CLIENT_ID_FILE := some "/s" }

/-- Raw settings declaring both Deribit override files. -/
def rawDeribitFiles : RawEnvSettings :=
  { defaultRaw with
    DERIBIT_CLIENT_ID_FILE := some "/s"
    DERIBIT_CLIENT_SECRET_FILE := some "/s" }

/-- Scanned exchange data with no deribit entry. -/
def exdNoDeribit : List (String × StrDict) := [("binance", [("ws_url", "w")])]

/-- Scanned exchange data with a deribit entry holding a direct value. -/
def exdDeribit : List (String × StrDict) := [("deribit", [("client_id", "direct")])]

/-! # Lemmas -/

theorem dictGet_dictInsert {κ : Type u} {α : Type v} [DecidableEq κ]
    (d : List (κ × α)) (k key : κ) (v : α) :
    dictGet (dictInsert d k v) key = if k = key then some v else dictGet d key := by
  induction d with
  | nil => simp [dictInsert, dictGet]
  | cons hd tl ih =>
    obtain ⟨k1, v1⟩ := hd
    simp only [dictInsert]
    by_cases h1 : k1 = k
    · simp only [if_pos h1]
      subst h1
      by_cases h2 : k1 = key
      · simp [dictGet, h2]
      · simp [dictGet, h2]
    · simp only [if_neg h1]
      by_cases h2 : k1 = key
      · have hk : ¬ k = key := fun h => h1 (h2.trans h.symm)
        simp [dictGet, h2, hk]
      · simp [dictGet, h2, ih]

theorem fieldMem_scanStep (acc : List (String × StrDict)) (kv : String × String) (x y : String) :
    fieldMem (scanStep acc kv) x y ↔ fieldMem acc x y ∨ parseExchangeKey kv.1 = some (x, y) := by
  unfold scanStep
  cases hp : parseExchangeKey kv.1 with
  | none => simp
  | some exfld =>
    obtain ⟨ex, fld⟩ := exfld
    by_cases hx : ex = x
    · subst hx
      have h1 : dictGet (dictInsert acc ex (dictInsert ((dictGet acc ex).getD []) fld kv.2)) ex
          = some (dictInsert ((dictGet acc ex).getD []) fld kv.2) := by
        rw [dictGet_dictInsert]; simp
      by_cases hfy : fld = y
      · subst hfy
        simp [fieldMem, h1, dictGet_dictInsert]
      · cases ha : dictGet acc ex with
        | none => simp [fieldMem, h1, dictGet_dictInsert, hfy, ha, dictGet]
        | some m => simp [fieldMem, h1, dictGet_dictInsert, hfy, ha]
    · simp [fieldMem, dictGet_dictInsert, hx]

theorem fieldMem_scan_foldl (env : Env) (acc : List (String × StrDict)) (x y : String) :
    fieldMem (env.foldl scanStep acc) x y ↔
      fieldMem acc x y ∨ ∃ kv, kv ∈ env ∧ parseExchangeKey kv.1 = some (x, y) := by
  induction env generalizing acc with
  | nil => simp
  | cons hd tl ih =>
    simp only [List.foldl_cons]
    rw [ih, fieldMem_scanStep]
    simp only [List.mem_cons]
    constructor
    · rintro ((h | h) | ⟨kv, hm, hp⟩)
      · exact Or.inl h
      · exact Or.inr ⟨hd, Or.inl rfl, h⟩
      · exact Or.inr ⟨kv, Or.inr hm, hp⟩
    · rintro (h | ⟨kv, (rfl | hm), hp⟩)
      · exact Or.inl (Or.inl h)
      · exact Or.inl (Or.inr hp)
      · exact Or.inr ⟨kv, hm, hp⟩

theorem exchMem_scanStep (acc : List (String × StrDict)) (kv : String × String) (x : String) :
    (dictGet (scanStep acc kv) x).isSome = true ↔
      (dictGet acc x).isSome = true ∨ ∃ y, parseExchangeKey kv.1 = some (x, y) := by
  unfold scanStep
  cases hp : parseExchangeKey kv.1 with
  | none => simp
  | some exfld =>
    obtain ⟨ex, fld⟩ := exfld
    by_cases hx : ex = x
    · subst hx
      simp [dictGet_dictInsert]
    · simp [dictGet_dictInsert, hx]

theorem exchMem_scan_foldl (env : Env) (acc : List (String × StrDict)) (x : String) :
    (dictGet (env.foldl scanStep acc) x).isSome = true ↔
      (dictGet acc x).isSome = true ∨ ∃ kv, kv ∈ env ∧ ∃ y, parseExchangeKey kv.1 = some (x, y) := by
  induction env generalizing acc with
  | nil => simp
  | cons hd tl ih =>
    simp only [List.foldl_cons]
    rw [ih, exchMem_scanStep]
    simp only [List.mem_cons]
    constructor
    · rintro ((h | h) | ⟨kv, hm, hp⟩)
      · exact Or.inl h
      · exact Or.inr ⟨hd, Or.inl rfl, h⟩
      · exact Or.inr ⟨kv, Or.inr hm, hp⟩
    · rintro (h | ⟨kv, (rfl | hm), hp⟩)
      · exact Or.inl (Or.inl h)
      · exact Or.inl (Or.inr hp)
      · exact Or.inr ⟨kv, hm, hp⟩

theorem parseExchangeKey_eq_some (k x y : String) :
    parseExchangeKey k = some (x, y) ↔
      pyStartsWith (pyLower k) "exchanges__" = true ∧
      ∃ h0, pySplit (pyLower k) "__" = [h0, x, y] := by
  unfold parseExchangeKey
  by_cases hs : pyStartsWith (pyLower k) "exchanges__"
  · rcases hsp : pySplit (pyLower k) "__" with _ | ⟨a, _ | ⟨b, _ | ⟨c, _ | ⟨d, e⟩⟩⟩⟩ <;>
      simp [hs, hsp]
  · simp [hs]

theorem fieldVal_scanStep (acc : List (String × StrDict)) (kv : String × String) (x y : String) :
    fieldVal (scanStep acc kv) x y =
      if parseExchangeKey kv.1 = some (x, y) then some kv.2 else fieldVal acc x y := by
  unfold scanStep
  cases hp : parseExchangeKey kv.1 with
  | none => simp
  | some exfld =>
    obtain ⟨ex, fld⟩ := exfld
    by_cases hx : ex = x
    · subst hx
      by_cases hfy : fld = y
      · subst hfy
        simp [fieldVal, dictGet_dictInsert]
      · cases ha : dictGet acc ex with
        | none => simp [fieldVal, dictGet_dictInsert, hfy, ha, dictGet]
        | some m => simp [fieldVal, dictGet_dictInsert, hfy, ha]
    · simp [fieldVal, dictGet_dictInsert, hx]

theorem fieldVal_scan_foldl (env : Env) (acc : List (String × StrDict)) (x y : String) :
    fieldVal (env.foldl scanStep acc) x y =
      env.foldl (fun r kv => if parseExchangeKey kv.1 = some (x, y) then some kv.2 else r)
        (fieldVal acc x y) := by
  induction env generalizing acc with
  | nil => simp
  | cons hd tl ih =>
    simp only [List.foldl_cons]
    rw [ih, fieldVal_scanStep]

theorem foldl_lastMatch_some (env : Env) (x y : String) :
    ∀ r v,
      env.foldl (fun r kv => if parseExchangeKey kv.1 = some (x, y) then some kv.2 else r) r
          = some v →
      r = some v ∨ ∃ kv, kv ∈ env ∧ parseExchangeKey kv.1 = some (x, y) ∧ kv.2 = v := by
  induction env with
  | nil => intro r v h; exact Or.inl h
  | cons hd tl ih =>
    intro r v h
    simp only [List.foldl_cons] at h
    rcases ih _ v h with h1 | ⟨kv, hmem, hp, hv⟩
    · by_cases hp : parseExchangeKey hd.1 = some (x, y)
      · rw [if_pos hp] at h1
        injection h1 with h2
        exact Or.inr ⟨hd, List.mem_cons_self hd tl, hp, h2⟩
      · rw [if_neg hp] at h1
        exact Or.inl h1
    · exact Or.inr ⟨kv, List.mem_cons_of_mem hd hmem, hp, hv⟩

theorem marketMap_mem_foldl (exchanges : List (String × ExchangeSettings))
    (mds : List MarketDefinition) (acc : List (String × MarketDefinition)) (m : String) :
    (dictGet (mds.foldl (marketStep exchanges) acc) m).isSome = true ↔
      (dictGet acc m).isSome = true ∨
      ∃ md, md ∈ mds ∧ md.market_id = m ∧ (dictGet exchanges md.exchange).isSome = true := by
  induction mds generalizing acc with
  | nil => simp
  | cons hd tl ih =>
    simp only [List.foldl_cons]
    rw [ih]
    have hstep : (dictGet (marketStep exchanges acc hd) m).isSome = true ↔
        (dictGet acc m).isSome = true ∨
        (hd.market_id = m ∧ (dictGet exchanges hd.exchange).isSome = true) := by
      unfold marketStep
      cases hc : dictGet exchanges hd.exchange with
      | none => simp
      | some cfg =>
        by_cases hm : hd.market_id = m
        · simp [dictGet_dictInsert, hm]
        · simp [dictGet_dictInsert, hm]
    rw [hstep]
    simp only [List.mem_cons]
    constructor
    · rintro ((h | ⟨h1, h2⟩) | ⟨md, hmem, h1, h2⟩)
      · exact Or.inl h
      · exact Or.inr ⟨hd, Or.inl rfl, h1, h2⟩
      · exact Or.inr ⟨md, Or.inr hmem, h1, h2⟩
    · rintro (h | ⟨md, (rfl | hmem), h1, h2⟩)
      · exact Or.inl (Or.inl h)
      · exact Or.inl (Or.inr ⟨h1, h2⟩)
      · exact Or.inr ⟨md, hmem, h1, h2⟩

theorem marketMap_val_foldl (exchanges : List (String × ExchangeSettings))
    (mds : List MarketDefinition) (acc : List (String × MarketDefinition))
    (m : String) (md2 : MarketDefinition) :
    dictGet (mds.foldl (marketStep exchanges) acc) m = some md2 →
      dictGet acc m = some md2 ∨
      ∃ md cfg, md ∈ mds ∧ dictGet exchanges md.exchange = some cfg ∧ md2 = hydrate md cfg := by
  induction mds generalizing acc with
  | nil => intro h; exact Or.inl h
  | cons hd tl ih =>
    intro h
    simp only [List.foldl_cons] at h
    rcases ih _ h with h1 | ⟨md, cfg, hmem, hc, he⟩
    · unfold marketStep at h1
      cases hex : dictGet exchanges hd.exchange with
      | none => rw [hex] at h1; exact Or.inl h1
      | some cfg =>
        rw [hex, dictGet_dictInsert] at h1
        by_cases hm : hd.market_id = m
        · rw [if_pos hm] at h1
          have he : hydrate hd cfg = md2 := by
            injection h1
          exact Or.inr ⟨hd, cfg, List.mem_cons_self hd tl, hex, he.symm⟩
        · rw [if_neg hm] at h1
          exact Or.inl h1
    · exact Or.inr ⟨md, cfg, List.mem_cons_of_mem hd hmem, hc, he⟩

theorem mem_foldl_append {α : Type u} (l : List (List α)) (acc : List α) (a : α) :
    a ∈ l.foldl (fun x y => x ++ y) acc ↔ a ∈ acc ∨ ∃ t, t ∈ l ∧ a ∈ t := by
  induction l generalizing acc with
  | nil => simp
  | cons hd tl ih =>
    simp only [List.foldl_cons]
    rw [ih]
    simp only [List.mem_append, List.mem_cons]
    constructor
    · rintro ((h | h) | ⟨t, ht, ha⟩)
      · exact Or.inl h
      · exact Or.inr ⟨hd, Or.inl rfl, h⟩
      · exact Or.inr ⟨t, Or.inr ht, ha⟩
    · rintro (h | ⟨t, (rfl | ht), ha⟩)
      · exact Or.inl (Or.inl h)
      · exact Or.inl (Or.inr ha)
      · exact Or.inr ⟨t, ht, ha⟩

theorem hedged_sorted (tradable : List (List String)) :
    (hedged_currencies_of tradable).Sorted (· ≤ ·) :=
  List.sorted_insertionSort _ _

theorem hedged_nodup (tradable : List (List String)) :
    (hedged_currencies_of tradable).Nodup :=
  ((List.perm_insertionSort _ _).nodup_iff).mpr (List.nodup_dedup _)

theorem hedged_mem (tradable : List (List String)) (a : String) :
    a ∈ hedged_currencies_of tradable ↔ ∃ t, t ∈ tradable ∧ a ∈ t := by
  unfold hedged_currencies_of
  rw [(List.perm_insertionSort _ _).mem_iff, List.mem_dedup, mem_foldl_append]
  simp

theorem applyDeribitOverrides_of_none (raw : RawEnvSettings) (fs : FS)
    (exd : List (String × StrDict)) (h : dictGet exd "deribit" = none) :
    applyDeribitOverrides raw fs exd = exd := by
  unfold applyDeribitOverrides
  rw [h]

theorem deribitResolve_of_not_truthy (direct fp : Option String) (fs : FS)
    (h : truthyOpt (read_secret direct fp fs) = false) :
    deribitResolve direct fp fs = direct := by
  unfold deribitResolve
  cases hr : read_secret direct fp fs with
  | none => rfl
  | some s =>
    rw [hr] at h
    unfold truthyOpt at h
    simp only [ne_eq, decide_not, Bool.not_eq_false'] at h
    simp [of_decide_eq_true h]

theorem dictGet_truthy_insert (d : StrDict) (key : String) (r : Option String) :
    dictGet (if truthyOpt r then dictInsert d key (r.getD "") else d) key =
      (match r with
       | none => dictGet d key
       | some s => if s = "" then dictGet d key else some s) := by
  cases r with
  | none => simp [truthyOpt]
  | some s =>
    by_cases hs : s = ""
    · simp [truthyOpt, hs]
    · simp [truthyOpt, hs, dictGet_dictInsert]

theorem dictGet_truthy_insert_ne (d : StrDict) (k2 k1 : String) (r : Option String)
    (h : ¬ k2 = k1) :
    dictGet (if truthyOpt r then dictInsert d k2 (r.getD "") else d) k1 = dictGet d k1 := by
  by_cases ht : truthyOpt r <;> simp [ht, dictGet_dictInsert, h]

theorem applyDeribitOverrides_of_some (raw : RawEnvSettings) (fs : FS)
    (exd : List (String × StrDict)) (d : StrDict)
    (hd : dictGet exd "deribit" = some d) :
    ∃ d2, dictGet (applyDeribitOverrides raw fs exd) "deribit" = some d2
      ∧ dictGet d2 "client_id"
          = deribitResolve (dictGet d "client_id") raw.DERIBIT_CLIENT_ID_FILE fs
      ∧ dictGet d2 "client_secret"
          = deribitResolve (dictGet d "client_secret") raw.DERIBIT_CLIENT_SECRET_FILE fs := by
  unfold applyDeribitOverrides
  rw [hd]
  dsimp only
  refine ⟨_, by rw [dictGet_dictInsert]; exact if_pos rfl, ?_, ?_⟩
  · rw [dictGet_truthy_insert_ne _ _ _ _ (by decide), dictGet_truthy_insert]
    rfl
  · rw [dictGet_truthy_insert,
      dictGet_truthy_insert_ne _ _ _ _ (by decide)]
    rfl

theorem pgBlockOf_required_missing (raw : RawEnvSettings) (fs : FS)
    (hmem : raw.SERVICE_NAME ∈ servicesRequiringDb)
    (hpw : (read_secret raw.POSTGRES_PASSWORD raw.POSTGRES_PASSWORD_FILE fs).getD "" = "") :
    pgBlockOf raw fs = Except.error (pgErrorMessage raw.SERVICE_NAME) := by
  unfold pgBlockOf
  rw [if_pos hmem, if_pos hpw]

theorem pgBlockOf_required_ok (raw : RawEnvSettings) (fs : FS)
    (hmem : raw.SERVICE_NAME ∈ servicesRequiringDb)
    (hpw : ¬ (read_secret raw.POSTGRES_PASSWORD raw.POSTGRES_PASSWORD_FILE fs).getD "" = "") :
    pgBlockOf raw fs = Except.ok (some
      { user := raw.POSTGRES_USER
        password := (read_secret raw.POSTGRES_PASSWORD raw.POSTGRES_PASSWORD_FILE fs).getD ""
        host := raw.POSTGRES_HOST
        port := raw.POSTGRES_PORT
        db := raw.POSTGRES_DB }) := by
  unfold pgBlockOf
  rw [if_pos hmem, if_neg hpw]

theorem pgBlockOf_not_required (raw : RawEnvSettings) (fs : FS)
    (hmem : raw.SERVICE_NAME ∉ servicesRequiringDb) :
    pgBlockOf raw fs = Except.ok none := by
  unfold pgBlockOf
  rw [if_neg hmem]

theorem ociBlockOf_not_executor (raw : RawEnvSettings) (fs : FS)
    (h : ¬ raw.SERVICE_NAME = "executor") :
    ociBlockOf raw fs = Except.ok none := by
  unfold ociBlockOf
  rw [if_neg h]

theorem ociBlockOf_executor_ok (raw : RawEnvSettings) (fs : FS)
    (h : raw.SERVICE_NAME = "executor")
    (h1 : (read_secret none raw.OCI_DSN_FILE fs).getD "" ≠ "")
    (h2 : raw.OCI_WALLET_DIR.getD "" ≠ "") :
    ociBlockOf raw fs = Except.ok (some
      { dsn := (read_secret none raw.OCI_DSN_FILE fs).getD ""
        wallet_dir := raw.OCI_WALLET_DIR.getD "" }) := by
  unfold ociBlockOf
  rw [if_pos h, if_pos ⟨h1, h2⟩]

theorem ociBlockOf_executor_missing (raw : RawEnvSettings) (fs : FS)
    (h : raw.SERVICE_NAME = "executor")
    (hm : (read_secret none raw.OCI_DSN_FILE fs).getD "" = "" ∨ raw.OCI_WALLET_DIR.getD "" = "") :
    ociBlockOf raw fs = Except.error ociErrorMessage := by
  unfold ociBlockOf
  rw [if_pos h, if_neg]
  rintro ⟨h1, h2⟩
  rcases hm with hm | hm
  · exact h1 hm
  · exact h2 hm

theorem load_settings_eq_assemble (env : Env) (fs : FS) (toml : TomlDoc)
    (raw : RawEnvSettings) (hraw : mkRawEnvSettings env = Except.ok raw) :
    load_settings env fs toml = assembleSettings raw env fs toml := by
  unfold load_settings
  rw [hraw]

theorem assembleSettings_pg_error (raw : RawEnvSettings) (env : Env) (fs : FS) (toml : TomlDoc)
    (e : String) (hpg : pgBlockOf raw fs = Except.error e) :
    assembleSettings raw env fs toml = Except.error e := by
  unfold assembleSettings
  rw [hpg]

theorem assembleSettings_oci_error (raw : RawEnvSettings) (env : Env) (fs : FS) (toml : TomlDoc)
    (pg : Option PostgresSettings) (e : String)
    (hpg : pgBlockOf raw fs = Except.ok pg) (hoci : ociBlockOf raw fs = Except.error e) :
    assembleSettings raw env fs toml = Except.error e := by
  unfold assembleSettings
  rw [hpg, hoci]

theorem assembleSettings_ok (raw : RawEnvSettings) (env : Env) (fs : FS) (toml : TomlDoc)
    (pg : Option PostgresSettings) (oci : Option OCISettings)
    (hpg : pgBlockOf raw fs = Except.ok pg) (hoci : ociBlockOf raw fs = Except.ok oci) :
    assembleSettings raw env fs toml = Except.ok (mergedSettings raw env fs toml pg oci) := by
  unfold assembleSettings
  rw [hpg, hoci]

theorem mergedSettings_postgres (raw : RawEnvSettings) (env : Env) (fs : FS) (toml : TomlDoc)
    (pg : Option PostgresSettings) (oci : Option OCISettings) :
    (mergedSettings raw env fs toml pg oci).postgres = pg := by
  simp [mergedSettings, build_other_derived_fields]

theorem mergedSettings_oci (raw : RawEnvSettings) (env : Env) (fs : FS) (toml : TomlDoc)
    (pg : Option PostgresSettings) (oci : Option OCISettings) :
    (mergedSettings raw env fs toml pg oci).oci = oci := by
  simp [mergedSettings, build_other_derived_fields]

theorem mergedSettings_exchanges (raw : RawEnvSettings) (env : Env) (fs : FS) (toml : TomlDoc)
    (pg : Option PostgresSettings) (oci : Option OCISettings) :
    (mergedSettings raw env fs toml pg oci).exchanges =
      (toml.exchanges.getD (applyDeribitOverrides raw fs (buildExchangesData env))).map
        (fun kv => (kv.1, toExchangeSettings kv.2)) := by
  simp [mergedSettings, build_other_derived_fields]

theorem dictGet_map_values {α β : Type v} (l : List (String × α)) (f : α → β) (k : String) :
    dictGet (l.map (fun kv => (kv.1, f kv.2))) k = (dictGet l k).map f := by
  induction l with
  | nil => simp [dictGet]
  | cons hd tl ih =>
    by_cases h : hd.1 = k
    · simp [dictGet, h]
    · simp [dictGet, h, ih]

theorem beBytes_length (k n : Nat) : (beBytes k n).length = k := by
  simp [beBytes]

theorem sha1_length (msg : List Nat) : (sha1 msg).length = 20 := by
  simp [sha1, sha1digest, beBytes_length]

theorem setVersion5AndVariant_length (bs : List Nat) :
    (setVersion5AndVariant bs).length = bs.length := by
  simp [setVersion5AndVariant]

theorem uuid5_length (ns nb : List Nat) : (uuid5 ns nb).length = 16 := by
  unfold uuid5
  rw [setVersion5AndVariant_length, List.length_take, sha1_length]
  decide

theorem beBytes_lt (k n : Nat) : ∀ b ∈ beBytes k n, b < 256 := by
  intro b hb
  simp only [beBytes, List.mem_map, List.mem_range] at hb
  obtain ⟨i, _, rfl⟩ := hb
  exact Nat.mod_lt _ (by norm_num)

theorem sha1_bytes_lt (msg : List Nat) : ∀ b ∈ sha1 msg, b < 256 := by
  intro b hb
  unfold sha1 sha1digest at hb
  simp only [List.mem_append] at hb
  rcases hb with (((h | h) | h) | h) | h <;> exact beBytes_lt _ _ _ h

theorem setVersion5AndVariant_lt (bs : List Nat) (hb : ∀ b ∈ bs, b < 256) :
    ∀ b ∈ setVersion5AndVariant bs, b < 256 := by
  intro b hmem
  unfold setVersion5AndVariant at hmem
  simp only [List.mem_map] at hmem
  obtain ⟨⟨i, a⟩, hia, rfl⟩ := hmem
  have ha : a < 256 := hb a (List.getElem?_mem (List.mk_mem_enum_iff_getElem?.mp hia))
  dsimp only
  by_cases h6 : i = 6
  · rw [if_pos h6]
    have h : (a &&& 15) ||| 80 < 2 ^ 8 :=
      Nat.or_lt_two_pow (Nat.lt_of_le_of_lt Nat.and_le_right (by norm_num)) (by norm_num)
    simpa using h
  · rw [if_neg h6]
    by_cases h8 : i = 8
    · rw [if_pos h8]
      have h : (a &&& 63) ||| 128 < 2 ^ 8 :=
        Nat.or_lt_two_pow (Nat.lt_of_le_of_lt Nat.and_le_right (by norm_num)) (by norm_num)
      simpa using h
    · rw [if_neg h8]
      exact ha

theorem uuid5_bytes_lt (ns nb : List Nat) : ∀ b ∈ uuid5 ns nb, b < 256 := by
  unfold uuid5
  exact setVersion5AndVariant_lt _
    (fun b hbmem => sha1_bytes_lt _ b (List.mem_of_mem_take hbmem))

theorem getIntD_ok_of_intFieldOk (env : Env) (key : String) (dflt : Int)
    (h : intFieldOk env key = true) : ∃ i, getIntD env key dflt = Except.ok i := by
  unfold intFieldOk at h
  unfold getIntD
  cases hq : envGet env key with
  | none => exact ⟨dflt, rfl⟩
  | some s =>
    rw [hq] at h
    dsimp only at h ⊢
    cases hp : pydInt s with
    | none => rw [hp] at h; simp at h
    | some i => exact ⟨i, rfl⟩

set_option maxRecDepth 8000

/-- Validation of the SHA-1 embedding: the RFC 3174 digest of the empty
message. -/
theorem sha1_empty_vector :
    sha1 [] = [218, 57, 163, 238, 94, 107, 75, 13, 50, 85, 191, 239,
               149, 96, 24, 144, 175, 216, 7, 9] := by
  decide

/-- Validation of the UUIDv5 embedding: the identifier of the account id
appearing in the constants table, cross-checked against RFC 4122. -/
theorem uuid5_account_vector :
    get_account_uuid "deribit-148510"
      = [131, 52, 15, 90, 36, 201, 94, 206, 128, 238, 139, 142, 53, 1, 60, 220] := by
  decide

/-! # Claim theorems -/

/-- Claim C1 (corrected).  For every secret pair, read_secret returns the
trimmed file contents whenever the path is set, non-empty and names an
existing readable file, regardless of the direct value; it returns the
direct value when the path is unset, empty, or names a non-existent
file.  The correction: when the path names an existing file whose read
fails, the function logs and returns the absent value (None), not the
direct value, so a read failure does not fall back to the direct value.
Nothing is ever raised (the embedded function is total by construction). -/
theorem c1_read_secret_resolution (v fp : Option String) (fs : FS) :
    (∀ p c, fp = some p → p ≠ "" → fs p = FileState.readable c →
      read_secret v fp fs = some (pyStrip c))
    ∧ ((fp = none ∨ fp = some "") → read_secret v fp fs = v)
    ∧ (∀ p, fp = some p → fs p = FileState.absent → read_secret v fp fs = v)
    ∧ (∀ p, fp = some p → p ≠ "" → fs p = FileState.unreadable →
      read_secret v fp fs = none) := by
  refine ⟨?_, ?_, ?_, ?_⟩
  · rintro p c rfl hp hr
    simp [read_secret, hp, hr]
  · rintro (rfl | rfl) <;> simp [read_secret]
  · rintro p rfl hr
    by_cases hp : p = "" <;> simp [read_secret, hp, hr]
  · rintro p rfl hp hr
    simp [read_secret, hp, hr]

/-- Claim C1 counterexample.  At the pair (direct value "direct", path
"/s") over a file system where /s exists but reading it fails, the
function returns none — not the direct value the claim requires. -/
theorem c1_counterexample :
    fsUnreadable "/s" = FileState.unreadable
    ∧ read_secret (some "direct") (some "/s") fsUnreadable = none
    ∧ ¬ read_secret (some "direct") (some "/s") fsUnreadable = some "direct" := by
  exact ⟨by decide, by decide, by decide⟩

/-- Claim C1 witness: the amended theorem at concrete inputs — a readable
file wins (trimmed) over the direct value, and a missing file falls back
to the direct value. -/
theorem c1_witness :
    read_secret (some "direct") (some "/s") fsReadable = some "pw"
    ∧ read_secret (some "direct") (some "/missing") fsReadable = some "direct" := by
  constructor
  · have h := (c1_read_secret_resolution (some "direct") (some "/s") fsReadable).1
      "/s" "  pw\n" rfl (by decide) rfl
    rw [h]
    decide
  · exact (c1_read_secret_resolution (some "direct") (some "/missing") fsReadable).2.2.1
      "/missing" rfl rfl

/-- Claim C3 (corrected, amended form).  Raw environment construction
succeeds on every environment whose int-typed variables (REDIS_DB,
POSTGRES_PORT), when set, hold valid integer literals; every other
declared field has a hardcoded default or is optional, so nothing else
can fail.  The resolver is however not total over arbitrary string
environments (see the counterexample). -/
theorem c3_env_resolver_totality (env : Env)
    (h1 : intFieldOk env "REDIS_DB" = true)
    (h2 : intFieldOk env "POSTGRES_PORT" = true) :
    ∃ raw, mkRawEnvSettings env = Except.ok raw := by
  obtain ⟨i1, e1⟩ := getIntD_ok_of_intFieldOk env "REDIS_DB" 0 h1
  obtain ⟨i2, e2⟩ := getIntD_ok_of_intFieldOk env "POSTGRES_PORT" 5432 h2
  unfold mkRawEnvSettings
  rw [e1, e2]
  exact ⟨_, rfl⟩

/-- Claim C3 counterexample.  An environment assigning a non-integer
string to REDIS_DB makes raw environment construction fail, so the
resolver is not total over all string environments. -/
theorem c3_counterexample : isOkE (mkRawEnvSettings envBadInt) = false := by
  decide

/-- Claim C3 witness: the amended theorem applied at the empty
environment, where construction succeeds with all defaults. -/
theorem c3_witness : ∃ raw, mkRawEnvSettings [] = Except.ok raw :=
  c3_env_resolver_totality [] (by decide) (by decide)

/-- Claim C4 (confirmed).  For every environment, the dynamically built
exchange set contains field y under exchange x exactly when some
environment key — compared case-insensitively via lower-casing — starts
with the EXCHANGES__ prefix and splits on the separator into exactly
three segments whose last two are x and y; keys of any other shape
contribute nothing, and no field name y is rejected.  The stored value
is bound to the environment: it equals the value of the last matching
key (later keys overwrite earlier ones under dict assignment), and in
particular every stored value is the value of some matching key. -/
theorem c4_exchange_env_scan (env : Env) (x y : String) :
    (fieldMem (buildExchangesData env) x y ↔
      ∃ kv, kv ∈ env ∧ pyStartsWith (pyLower kv.1) "exchanges__" = true
        ∧ ∃ h0, pySplit (pyLower kv.1) "__" = [h0, x, y])
    ∧ fieldVal (buildExchangesData env) x y = lastMatchValue env x y
    ∧ (∀ v, fieldVal (buildExchangesData env) x y = some v →
      ∃ kv, kv ∈ env ∧ kv.2 = v ∧ pyStartsWith (pyLower kv.1) "exchanges__" = true
        ∧ ∃ h0, pySplit (pyLower kv.1) "__" = [h0, x, y]) := by
  have hval : fieldVal (buildExchangesData env) x y = lastMatchValue env x y := by
    unfold buildExchangesData lastMatchValue
    rw [fieldVal_scan_foldl]
    have hempty : fieldVal ([] : List (String × StrDict)) x y = none := rfl
    rw [hempty]
  refine ⟨?_, hval, ?_⟩
  · unfold buildExchangesData
    rw [fieldMem_scan_foldl]
    have hempty : ¬ fieldMem [] x y := by
      rintro ⟨m, hm, _⟩
      simp [dictGet] at hm
    simp only [parseExchangeKey_eq_some]
    constructor
    · rintro (h | h)
      · exact absurd h hempty
      · exact h
    · intro h
      exact Or.inr h
  · intro v hv
    rw [hval] at hv
    unfold lastMatchValue at hv
    rcases foldl_lastMatch_some env x y none v hv with h1 | ⟨kv, hmem, hp, hvv⟩
    · exact absurd h1 (by simp)
    · rw [parseExchangeKey_eq_some] at hp
      exact ⟨kv, hmem, hvv, hp.1, hp.2⟩

/-- Claim C5 (confirmed).  A market id is in market_map iff some market
definition with that id references an exchange present in the exchange
set — a definition referencing an absent exchange is dropped silently
(with a logged warning), never an error, since the construction is a
total function — and every included entry carries exactly the matching
exchange ws/rest URLs. -/
theorem c5_market_map_hydration (s : AppSettings) :
    (∀ m, (dictGet (AppSettings.market_map s) m).isSome = true ↔
      ∃ md, md ∈ s.market_definitions ∧ md.market_id = m ∧
        (dictGet s.exchanges md.exchange).isSome = true)
    ∧ (∀ m md2, dictGet (AppSettings.market_map s) m = some md2 →
      (dictGet s.exchanges md2.exchange).map (fun cfg => cfg.ws_url) = some md2.ws_base_url
      ∧ (dictGet s.exchanges md2.exchange).map (fun cfg => cfg.rest_url)
          = some md2.rest_base_url) := by
  constructor
  · intro m
    unfold AppSettings.market_map
    rw [marketMap_mem_foldl]
    simp [dictGet]
  · intro m md2 h
    unfold AppSettings.market_map at h
    rcases marketMap_val_foldl _ _ _ _ _ h with h1 | ⟨md, cfg, _, hc, rfl⟩
    · simp [dictGet] at h1
    · have hx : (hydrate md cfg).exchange = md.exchange := rfl
      rw [hx, hc]
      exact ⟨rfl, rfl⟩

/-- Claim C5 witness: in the sample settings, market m1 whose exchange is
configured appears hydrated with the configured URLs, while market m2
whose exchange is absent is dropped. -/
theorem c5_witness :
    (dictGet (AppSettings.market_map sampleSettings) "m1").isSome = true
    ∧ (dictGet sampleSettings.exchanges sampleHydrated.exchange).map (fun cfg => cfg.ws_url)
        = some sampleHydrated.ws_base_url
    ∧ ¬ (dictGet (AppSettings.market_map sampleSettings) "m2").isSome = true := by
  refine ⟨?_, ?_, ?_⟩
  · exact ((c5_market_map_hydration sampleSettings).1 "m1").mpr
      ⟨{ market_id := "m1", exchange := "deribit" }, by decide, rfl, by decide⟩
  · exact ((c5_market_map_hydration sampleSettings).2 "m1" sampleHydrated (by decide)).1
  · intro h
    exact absurd (((c5_market_map_hydration sampleSettings).1 "m2").mp h) (by decide)

/-- Claim C6 (confirmed).  The validator assigns hedged_currencies the
sorted deduplicated union of all spot lists: the result is sorted
ascending, has no duplicate entries, and contains a currency iff some
tradable item lists it. -/
theorem c6_hedged_currencies (s : AppSettings) (tradable : List (List String)) :
    (build_other_derived_fields s).hedged_currencies = hedged_currencies_of s.tradable
    ∧ (hedged_currencies_of tradable).Sorted (· ≤ ·)
    ∧ (hedged_currencies_of tradable).Nodup
    ∧ (∀ a, a ∈ hedged_currencies_of tradable ↔ ∃ t, t ∈ tradable ∧ a ∈ t) :=
  ⟨rfl, hedged_sorted tradable, hedged_nodup tradable, fun a => hedged_mem tradable a⟩

/-- Claim C9 (confirmed).  get_account_uuid is deterministic — equal
account ids yield the same identifier — and equals the name-based
version-5 UUID of the account id under the fixed hardcoded namespace:
16 bytes (128 bits), each below 256. -/
theorem c9_account_uuid_deterministic (a b : String) (h : a = b) :
    get_account_uuid a = get_account_uuid b
    ∧ get_account_uuid a = uuid5 TRADING_IDENTITY_NAMESPACE (strBytes a)
    ∧ (get_account_uuid a).length = 16
    ∧ (∀ byte ∈ get_account_uuid a, byte < 256) := by
  subst h
  exact ⟨rfl, rfl, uuid5_length _ _, uuid5_bytes_lt _ _⟩

/-- Claim C9 witness: the theorem applied at the account id from the
constants table. -/
theorem c9_witness :
    get_account_uuid "deribit-148510" = get_account_uuid "deribit-148510"
    ∧ (get_account_uuid "deribit-148510").length = 16 :=
  ⟨(c9_account_uuid_deterministic "deribit-148510" "deribit-148510" rfl).1,
   (c9_account_uuid_deterministic "deribit-148510" "deribit-148510" rfl).2.2.1⟩

/-- Claim C10 (confirmed).  The Deribit file overrides are consulted only
when the scanned data has a deribit entry — with none, the override block
returns the scanned data unchanged, so the *_FILE variables are ignored
entirely (in particular whenever no environment key parses to exchange
deribit) — and a consulted override that resolves to an absent or empty
value leaves the previously scanned direct value unchanged. -/
theorem c10_deribit_override_scope (raw : RawEnvSettings) (fs : FS) (env : Env)
    (exd : List (String × StrDict)) :
    (dictGet exd "deribit" = none → applyDeribitOverrides raw fs exd = exd)
    ∧ ((¬ ∃ kv, kv ∈ env ∧ ∃ y, parseExchangeKey kv.1 = some ("deribit", y)) →
        applyDeribitOverrides raw fs (buildExchangesData env) = buildExchangesData env)
    ∧ (∀ d, dictGet exd "deribit" = some d →
        ∃ d2, dictGet (applyDeribitOverrides raw fs exd) "deribit" = some d2
          ∧ (truthyOpt (read_secret (dictGet d "client_id") raw.DERIBIT_CLIENT_ID_FILE fs)
                = false →
              dictGet d2 "client_id" = dictGet d "client_id")
          ∧ (truthyOpt (read_secret (dictGet d "client_secret") raw.DERIBIT_CLIENT_SECRET_FILE fs)
                = false →
              dictGet d2 "client_secret" = dictGet d "client_secret")) := by
  refine ⟨applyDeribitOverrides_of_none raw fs exd, ?_, ?_⟩
  · intro hno
    apply applyDeribitOverrides_of_none
    cases hg : dictGet (buildExchangesData env) "deribit" with
    | none => rfl
    | some m =>
      exfalso
      have hs : (dictGet (buildExchangesData env) "deribit").isSome = true := by
        rw [hg]; rfl
      unfold buildExchangesData at hs
      rw [exchMem_scan_foldl] at hs
      rcases hs with h | h
      · simp [dictGet] at h
      · exact hno h
  · intro d hd
    obtain ⟨d2, hget, hid, hsec⟩ := applyDeribitOverrides_of_some raw fs exd d hd
    refine ⟨d2, hget, ?_, ?_⟩
    · intro ht
      rw [hid]
      exact deribitResolve_of_not_truthy _ _ _ ht
    · intro ht
      rw [hsec]
      exact deribitResolve_of_not_truthy _ _ _ ht

/-- Claim C10 witness: with both override files declared but the file
unreadable, a missing deribit entry is returned untouched, and a present
deribit entry keeps its scanned direct value. -/
theorem c10_witness :
    applyDeribitOverrides rawDeribitFiles fsUnreadable exdNoDeribit = exdNoDeribit
    ∧ ∃ d2, dictGet (applyDeribitOverrides rawDeribitFiles fsUnreadable exdDeribit) "deribit"
          = some d2
        ∧ dictGet d2 "client_id" = some "direct" := by
  constructor
  · exact (c10_deribit_override_scope rawDeribitFiles fsUnreadable [] exdNoDeribit).1 (by decide)
  · obtain ⟨d2, hget, hid, _⟩ :=
      (c10_deribit_override_scope rawDeribitFiles fsUnreadable [] exdDeribit).2.2
        [("client_id", "direct")] (by decide)
    refine ⟨d2, hget, ?_⟩
    rw [hid (by decide)]
    decide

/-- Claim C7 (corrected, amended form).  When the service is one of the
enumerated database-requiring services and the secret resolution of
(POSTGRES_PASSWORD, POSTGRES_PASSWORD_FILE) yields nothing non-empty,
settings assembly fails with the fatal message naming the service.  The
success half holds for every enumerated service except the executor
sentinel: a resolvable non-empty password makes assembly succeed with
the postgres block populated from the raw environment fields.  For the
executor the original claim is false — the same input additionally needs
the OCI connection string and wallet directory (see the counterexample
and claim C8). -/
theorem c7_db_password_requirement (env : Env) (fs : FS) (toml : TomlDoc)
    (raw : RawEnvSettings) (hraw : mkRawEnvSettings env = Except.ok raw) :
    (raw.SERVICE_NAME ∈ servicesRequiringDb →
      (read_secret raw.POSTGRES_PASSWORD raw.POSTGRES_PASSWORD_FILE fs).getD "" = "" →
      load_settings env fs toml = Except.error (pgErrorMessage raw.SERVICE_NAME))
    ∧ (raw.SERVICE_NAME ∈ servicesRequiringDb →
      raw.SERVICE_NAME ≠ "executor" →
      (read_secret raw.POSTGRES_PASSWORD raw.POSTGRES_PASSWORD_FILE fs).getD "" ≠ "" →
      isOkE (load_settings env fs toml) = true
      ∧ resultPostgres (load_settings env fs toml) = some
        { user := raw.POSTGRES_USER
          password := (read_secret raw.POSTGRES_PASSWORD raw.POSTGRES_PASSWORD_FILE fs).getD ""
          host := raw.POSTGRES_HOST
          port := raw.POSTGRES_PORT
          db := raw.POSTGRES_DB }) := by
  constructor
  · intro hmem hpw
    rw [load_settings_eq_assemble env fs toml raw hraw]
    exact assembleSettings_pg_error _ _ _ _ _ (pgBlockOf_required_missing raw fs hmem hpw)
  · intro hmem hne hpw
    have hoci : ociBlockOf raw fs = Except.ok none := ociBlockOf_not_executor raw fs hne
    have hpg := pgBlockOf_required_ok raw fs hmem hpw
    rw [load_settings_eq_assemble env fs toml raw hraw,
        assembleSettings_ok raw env fs toml _ _ hpg hoci]
    exact ⟨rfl, by simp [resultPostgres, mergedSettings_postgres]⟩

/-- Claim C7 counterexample.  The executor is one of the enumerated
database-requiring services, and here its database password resolves to
the non-empty value pw — a valid resolvable password — yet assembly
still fails, with the OCI error: the success half of the claim is false
for the executor. -/
theorem c7_counterexample :
    "executor" ∈ servicesRequiringDb
    ∧ (read_secret (some "pw") none fs0).getD "" = "pw"
    ∧ load_settings envExecPwNoOci fs0 toml0 = Except.error ociErrorMessage := by
  exact ⟨by decide, by decide, rfl⟩

/-- Claim C7 witness: the amended theorem at concrete inputs —
distributor with no password source fails with the message naming it;
distributor with a direct password succeeds and populates the postgres
block. -/
theorem c7_witness :
    load_settings envDistNoPw fs0 toml0 = Except.error (pgErrorMessage "distributor")
    ∧ isOkE (load_settings envDistPw fs0 toml0) = true
    ∧ resultPostgres (load_settings envDistPw fs0 toml0) = some
        { user := "trading_app", password := "pw", host := "postgres"
          port := 5432, db := "trading" } := by
  refine ⟨?_, ?_⟩
  · exact (c7_db_password_requirement envDistNoPw fs0 toml0 rawDistNoPw rfl).1
      (by decide) (by decide)
  · exact (c7_db_password_requirement envDistPw fs0 toml0 rawDistPw rfl).2
      (by decide) (by decide) (by decide)

/-- Claim C8 (corrected, amended form).  For the executor sentinel,
settings assembly fails whenever the resolved OCI connection string or
the wallet directory is absent; when both are present AND the database
password also resolves non-empty — the executor is itself one of the
database-requiring services, which the original claim overlooks —
assembly succeeds with the oci block carrying both values. -/
theorem c8_oci_requirement (env : Env) (fs : FS) (toml : TomlDoc)
    (raw : RawEnvSettings) (hraw : mkRawEnvSettings env = Except.ok raw)
    (hexec : raw.SERVICE_NAME = "executor") :
    ((read_secret none raw.OCI_DSN_FILE fs).getD "" = "" ∨ raw.OCI_WALLET_DIR.getD "" = "" →
      ∃ e, load_settings env fs toml = Except.error e)
    ∧ ((read_secret none raw.OCI_DSN_FILE fs).getD "" ≠ "" →
      raw.OCI_WALLET_DIR.getD "" ≠ "" →
      (read_secret raw.POSTGRES_PASSWORD raw.POSTGRES_PASSWORD_FILE fs).getD "" ≠ "" →
      isOkE (load_settings env fs toml) = true
      ∧ resultOci (load_settings env fs toml) = some
          { dsn := (read_secret none raw.OCI_DSN_FILE fs).getD ""
            wallet_dir := raw.OCI_WALLET_DIR.getD "" }) := by
  have hmem : raw.SERVICE_NAME ∈ servicesRequiringDb := by rw [hexec]; decide
  constructor
  · intro hm
    rw [load_settings_eq_assemble env fs toml raw hraw]
    by_cases hpw : (read_secret raw.POSTGRES_PASSWORD raw.POSTGRES_PASSWORD_FILE fs).getD "" = ""
    · exact ⟨_, assembleSettings_pg_error _ _ _ _ _ (pgBlockOf_required_missing raw fs hmem hpw)⟩
    · exact ⟨_, assembleSettings_oci_error _ _ _ _ _ _
        (pgBlockOf_required_ok raw fs hmem hpw) (ociBlockOf_executor_missing raw fs hexec hm)⟩
  · intro h1 h2 hpw
    rw [load_settings_eq_assemble env fs toml raw hraw,
        assembleSettings_ok raw env fs toml _ _ (pgBlockOf_required_ok raw fs hmem hpw)
          (ociBlockOf_executor_ok raw fs hexec h1 h2)]
    exact ⟨rfl, by simp [resultOci, mergedSettings_oci]⟩

/-- Claim C8 counterexample.  SERVICE_NAME executor with a readable OCI
DSN file and a wallet directory — both vendor values present, which per
the claim should make assembly succeed — still fails, because the
executor is also a database-requiring service and no database password is
available. -/
theorem c8_counterexample :
    (read_secret none (some "/oci") fsOci).getD "" = "mydsn"
    ∧ envGet envExecNoPw "OCI_WALLET_DIR" = some "/wallet"
    ∧ load_settings envExecNoPw fsOci toml0 = Except.error (pgErrorMessage "executor") := by
  exact ⟨by decide, by decide, rfl⟩

/-- Claim C8 witness: the amended theorem at concrete inputs — executor
with a password, a readable DSN file and a wallet directory succeeds and
populates the oci block with both values. -/
theorem c8_witness :
    isOkE (load_settings envExecFull fsOci toml0) = true
    ∧ resultOci (load_settings envExecFull fsOci toml0)
        = some { dsn := "mydsn", wallet_dir := "/wallet" } := by
  exact (c8_oci_requirement envExecFull fsOci toml0 rawExecFull rfl rfl).2
    (by decide) (by decide) (by decide)

/-- Claim C2 (corrected, amended form).  In a successful load, the
database password and the OCI connection string equal exactly what
read_secret yields on their declared (direct value, file path) pairs; the
two Deribit credential fields are resolved through the same read_secret
call but each keeps the environment-scanned direct value whenever that
call yields an absent or empty result — so their final value is not
always the read_secret output — and they are only consulted at all when
a scanned deribit entry exists (the static document may also replace the
exchange set wholesale, hence the toml hypothesis). -/
theorem c2_secret_resolution_sites (env : Env) (fs : FS) (toml : TomlDoc)
    (raw : RawEnvSettings) (s : AppSettings)
    (hraw : mkRawEnvSettings env = Except.ok raw)
    (hok : load_settings env fs toml = Except.ok s) :
    (raw.SERVICE_NAME ∈ servicesRequiringDb →
      s.postgres.map (fun p => p.password)
        = some ((read_secret raw.POSTGRES_PASSWORD raw.POSTGRES_PASSWORD_FILE fs).getD ""))
    ∧ (raw.SERVICE_NAME = "executor" →
      s.oci.map (fun o => o.dsn) = some ((read_secret none raw.OCI_DSN_FILE fs).getD ""))
    ∧ (toml.exchanges = none →
      ∀ d, dictGet (buildExchangesData env) "deribit" = some d →
        (dictGet s.exchanges "deribit").map (fun es => es.client_id)
          = some (deribitResolve (dictGet d "client_id") raw.DERIBIT_CLIENT_ID_FILE fs)
        ∧ (dictGet s.exchanges "deribit").map (fun es => es.client_secret)
          = some (deribitResolve (dictGet d "client_secret") raw.DERIBIT_CLIENT_SECRET_FILE fs)) := by
  rw [load_settings_eq_assemble env fs toml raw hraw] at hok
  unfold assembleSettings at hok
  cases hpg : pgBlockOf raw fs with
  | error e => rw [hpg] at hok; exact absurd hok (by simp)
  | ok pg =>
    cases hoci : ociBlockOf raw fs with
    | error e => rw [hpg, hoci] at hok; exact absurd hok (by simp)
    | ok oci =>
      rw [hpg, hoci] at hok
      have hs : s = mergedSettings raw env fs toml pg oci := by
        injection hok with h
        exact h.symm
      subst hs
      refine ⟨?_, ?_, ?_⟩
      · intro hmem
        by_cases hpw :
            (read_secret raw.POSTGRES_PASSWORD raw.POSTGRES_PASSWORD_FILE fs).getD "" = ""
        · exfalso
          rw [pgBlockOf_required_missing raw fs hmem hpw] at hpg
          exact Except.noConfusion hpg
        · rw [pgBlockOf_required_ok raw fs hmem hpw] at hpg
          injection hpg with h2
          rw [mergedSettings_postgres, ← h2]
          rfl
      · intro hexec
        by_cases h1 : (read_secret none raw.OCI_DSN_FILE fs).getD "" = ""
        · exfalso
          rw [ociBlockOf_executor_missing raw fs hexec (Or.inl h1)] at hoci
          exact Except.noConfusion hoci
        · by_cases h2 : raw.OCI_WALLET_DIR.getD "" = ""
          · exfalso
            rw [ociBlockOf_executor_missing raw fs hexec (Or.inr h2)] at hoci
            exact Except.noConfusion hoci
          · rw [ociBlockOf_executor_ok raw fs hexec h1 h2] at hoci
            injection hoci with h3
            rw [mergedSettings_oci, ← h3]
            rfl
      · intro htoml d hd
        obtain ⟨d2, hget, hid, hsec⟩ :=
          applyDeribitOverrides_of_some raw fs (buildExchangesData env) d hd
        rw [mergedSettings_exchanges, htoml]
        simp only [Option.getD_none]
        rw [dictGet_map_values, hget]
        constructor
        · simp only [Option.map_some']
          rw [show (toExchangeSettings d2).client_id = dictGet d2 "client_id" from rfl, hid]
        · simp only [Option.map_some']
          rw [show (toExchangeSettings d2).client_secret = dictGet d2 "client_secret" from rfl,
            hsec]

/-- Claim C2 counterexample.  With a scanned direct Deribit client id and
an override file whose read fails, read_secret on the declared pair
yields none, yet the final settings keep the direct value — so the
resolved credential does not equal the single resolution function output,
refuting "identical rule for every secret". -/
theorem c2_counterexample :
    read_secret (some "directvalue") (some "/s") fsUnreadable = none
    ∧ dictGet (buildExchangesData envDeribitFile) "deribit"
        = some [("client_id", "directvalue")]
    ∧ resultDeribitClientId (load_settings envDeribitFile fsUnreadable toml0)
        = some "directvalue" := by
  exact ⟨by decide, by decide, by decide⟩

/-- Claim C2 witness: the amended theorem at a concrete input where the
override file is readable, so the Deribit client id resolves to the
trimmed file contents. -/
theorem c2_witness :
    resultDeribitClientId (load_settings envDeribitReadable fsReadable toml0) = some "pw" := by
  cases hload : load_settings envDeribitReadable fsReadable toml0 with
  | error e =>
    have hok : isOkE (load_settings envDeribitReadable fsReadable toml0) = true := by decide
    rw [hload] at hok
    exact absurd hok (by simp [isOkE])
  | ok s =>
    have h := c2_secret_resolution_sites envDeribitReadable fsReadable toml0 rawDeribitRd s
      rfl hload
    have h3 := (h.2.2 rfl [("client_id", "directvalue")] (by decide)).1
    cases hx : dictGet s.exchanges "deribit" with
    | none => rw [hx] at h3; exact absurd h3 (by simp)
    | some es =>
      rw [hx] at h3
      simp only [Option.map_some'] at h3
      injection h3 with h4
      simp only [resultDeribitClientId]
      rw [hx]
      simp only [Option.some_bind]
      rw [h4]
      decide

end SharedUtils

